import Mathlib

/-
Verification of the apexd packet-repository core
(system/apex: apex_file_repository.cpp, apex_preinstalled_data.cpp, apexd.h).

The C++ state is embedded shallowly:
  * `std::unordered_map<std::string, V>` becomes an association list with
    first-match lookup (`StoreFind`); `emplace` on an absent key appends,
    `it->second = v` becomes `StoreSet`.
  * `android::base::Result<T>` becomes `Except String T`.
  * `LOG(FATAL)` / `CHECK` aborts are made explicit: operations that can
    abort return an `Outcome` (or `Option`) whose `fatalAbort` (`none`)
    constructor marks process abortion.
  * Directory scanning is modelled on the list of open results the scanner
    would produce: `ApexFile::Open` failures appear as `Except.error`.
-/

namespace Apex

/-- View of the `ApexFile` collaborator (apex_file.h is external to the core):
the repository code reads the manifest name, the manifest version (int64), the
bundled public key, the file path, the compression flag and the
shared-libraries manifest flag. -/
structure ApexFile where
  name : String
  version : Int
  publicKey : String
  path : String
  isCompressed : Bool
  providesSharedLibs : Bool
deriving DecidableEq, Repr

/-- First-match lookup in an association list, embedding
`std::unordered_map::find`. -/
def StoreFind {α : Type} : List (String × α) → String → Option α
  | [], _ => none
  | (k, v) :: t, n => if k = n then some v else StoreFind t n

/-- In-place replacement of the value bound to a key, embedding
`it->second = value`. -/
def StoreSet {α : Type} (s : List (String × α)) (m : String) (a : α) :
    List (String × α) :=
  s.map fun kv => if kv.1 = m then (kv.1, a) else kv

/-- Embedding of `std::string::starts_with` on the character sequence. -/
def strStartsWith (s p : String) : Bool := p.data.isPrefixOf s.data

/-- Embedding of `android::base::EndsWith` on the character sequence. -/
def strEndsWith (s p : String) : Bool := p.data.isSuffixOf s.data

/-- Suffix of decompressed apex packages (`kDecompressedApexPackageSuffix`,
declared in the external apex_constants.h; its exact value is irrelevant to
every theorem below). -/
def kDecompressedApexPackageSuffix : String := ".decompressed.apex"

/-- State of `ApexFileRepository` (apex_file_repository.cpp): the
decompression directory fixed at construction, the pre-installed index
`pre_installed_store_` and the data index `data_store_`. -/
structure ApexFileRepository where
  decompression_dir : String
  pre_installed_store : List (String × ApexFile)
  data_store : List (String × ApexFile)
deriving DecidableEq, Repr

/-- Embeds `ApexFileRepository::GetPublicKey` (apex_file_repository.cpp:201). -/
def GetPublicKey (repo : ApexFileRepository) (name : String) :
    Except String String :=
  match StoreFind repo.pre_installed_store name with
  | none => .error ("No preinstalled apex found for package " ++ name)
  | some it => .ok it.publicKey

/-- Embeds `ApexFileRepository::GetPreinstalledPath`
(apex_file_repository.cpp:212). -/
def GetPreinstalledPath (repo : ApexFileRepository) (name : String) :
    Except String String :=
  match StoreFind repo.pre_installed_store name with
  | none => .error ("No preinstalled data found for package " ++ name)
  | some it => .ok it.path

/-- Embeds `ApexFileRepository::GetDataPath` (apex_file_repository.cpp:223). -/
def GetDataPath (repo : ApexFileRepository) (name : String) :
    Except String String :=
  match StoreFind repo.data_store name with
  | none => .error ("No data apex found for package " ++ name)
  | some it => .ok it.path

/-- Embeds `ApexFileRepository::HasPreInstalledVersion`
(apex_file_repository.cpp:232). -/
def HasPreInstalledVersion (repo : ApexFileRepository) (name : String) : Bool :=
  (StoreFind repo.pre_installed_store name).isSome

/-- Embeds `ApexFileRepository::HasDataVersion`
(apex_file_repository.cpp:236). -/
def HasDataVersion (repo : ApexFileRepository) (name : String) : Bool :=
  (StoreFind repo.data_store name).isSome

/-- Embeds `ApexFileRepository::IsDecompressedApex`
(apex_file_repository.cpp:242): an apex is decompressed iff its path lies in
the decompression directory. -/
def IsDecompressedApex (repo : ApexFileRepository) (apex : ApexFile) : Bool :=
  strStartsWith apex.path repo.decompression_dir

/-- Embeds `ApexFileRepository::IsPreInstalledApex`
(apex_file_repository.cpp:246). -/
def IsPreInstalledApex (repo : ApexFileRepository) (apex : ApexFile) : Bool :=
  match StoreFind repo.pre_installed_store apex.name with
  | none => false
  | some it => it.path == apex.path || IsDecompressedApex repo apex

/-- Embeds `ApexFileRepository::GetPreInstalledApex`
(apex_file_repository.cpp:296); the `CHECK(it != pre_installed_store_.end())`
abort is the `none` case. -/
def GetPreInstalledApex (repo : ApexFileRepository) (name : String) :
    Option ApexFile :=
  StoreFind repo.pre_installed_store name

/-- Result of a scan call: normal return of a value, a propagated
`Result` error, or a `LOG(FATAL)` process abort. -/
inductive Outcome (α : Type) where
  | ok (a : α)
  | ioError (msg : String)
  | fatalAbort
deriving DecidableEq, Repr

/-- Contents handed to a scanner: the directory is absent (`access` fails with
`ENOENT`), unreadable (`FindFilesBySuffix` fails), or present with the listed
open results. -/
inductive DirState where
  | absent
  | unreadable (msg : String)
  | present (files : List (Except String ApexFile))

deriving instance DecidableEq for Except
deriving instance DecidableEq for DirState

/-- Per-file body of the loop of `ApexFileRepository::ScanBuiltInDir`
(apex_file_repository.cpp:55-86). `nonRelVndk name` embeds the condition
`StartsWith(name, "com.android.vndk.") && GetProperty("ro.build.version.codename", "REL") != "REL"`
under which a duplicate path is logged at INFO instead of FATAL; the
build-property read is external state, so the property comparison outcome is
the parameter `nonRel`. -/
def scanPreInstalledFile (nonRel : Bool)
    (store : List (String × ApexFile)) (f : Except String ApexFile) :
    Outcome (List (String × ApexFile)) :=
  match f with
  | .error e => .ioError e
  | .ok apex =>
    match StoreFind store apex.name with
    | none => .ok (store ++ [(apex.name, apex)])
    | some it =>
      if it.path ≠ apex.path then
        if strStartsWith apex.name "com.android.vndk." ∧ nonRel then
          .ok store
        else
          .fatalAbort
      else if it.publicKey ≠ apex.publicKey then
        .fatalAbort
      else
        .ok store

/-- The loop of `ApexFileRepository::ScanBuiltInDir` over the open results. -/
def scanPreInstalledFiles (nonRel : Bool)
    (store : List (String × ApexFile)) :
    List (Except String ApexFile) → Outcome (List (String × ApexFile))
  | [] => .ok store
  | f :: fs =>
    match scanPreInstalledFile nonRel store f with
    | .ok s => scanPreInstalledFiles nonRel s fs
    | .ioError e => .ioError e
    | .fatalAbort => .fatalAbort

/-- Embeds `ApexFileRepository::ScanBuiltInDir`
(apex_file_repository.cpp:41-88): an absent directory is skipped with
success, an unreadable one propagates the error, otherwise the files are
folded into the pre-installed store. -/
def ScanBuiltInDir (nonRel : Bool) (store : List (String × ApexFile))
    (d : DirState) : Outcome (List (String × ApexFile)) :=
  match d with
  | .absent => .ok store
  | .unreadable e => .ioError e
  | .present files => scanPreInstalledFiles nonRel store files

/-- Embeds `ApexFileRepository::AddPreInstalledApex`
(apex_file_repository.cpp:95-103): scan each pre-installed root in order,
stopping at the first error. -/
def AddPreInstalledApex (nonRel : Bool)
    (store : List (String × ApexFile)) :
    List DirState → Outcome (List (String × ApexFile))
  | [] => .ok store
  | d :: ds =>
    match ScanBuiltInDir nonRel store d with
    | .ok s => AddPreInstalledApex nonRel s ds
    | .ioError e => .ioError e
    | .fatalAbort => .fatalAbort

/-- Embeds the data-index update at the end of the `AddDataApex` loop
(apex_file_repository.cpp:179-194): first candidate for a name is inserted;
otherwise the existing entry is replaced when the new one has a higher
version, or an equal version and is not decompressed. -/
def insertOrReplaceData (repo : ApexFileRepository) (apex : ApexFile) :
    ApexFileRepository :=
  match StoreFind repo.data_store apex.name with
  | none =>
    { repo with data_store := repo.data_store ++ [(apex.name, apex)] }
  | some it =>
    let prioritizeHigherVersion : Bool := it.version < apex.version
    let prioritizeNonDecompressed : Bool :=
      apex.version == it.version && !(IsDecompressedApex repo apex)
    if prioritizeHigherVersion || prioritizeNonDecompressed then
      { repo with data_store := StoreSet repo.data_store apex.name apex }
    else
      repo

/-- Per-file body of the loop of `ApexFileRepository::AddDataApex`
(apex_file_repository.cpp:133-195). `validate` embeds the external
`ValidateDecompressedApex` call (defined in apexd.cpp, outside the
repository core). A `none` result marks the `CHECK` abort inside
`GetPreInstalledApex`; every skipped candidate yields the unchanged
repository. -/
def processDataApex (validate : ApexFile → ApexFile → Bool)
    (repo : ApexFileRepository) (apex : ApexFile) :
    Option ApexFileRepository :=
  if HasPreInstalledVersion repo apex.name = false then
    -- no pre-installed apex: ignore the data apex
    some repo
  else
    match GetPublicKey repo apex.name with
    | .error _ => some repo
    | .ok k =>
      if apex.publicKey ≠ k then
        -- public key does not match the pre-installed one: skip
        some repo
      else
        if IsDecompressedApex repo apex then
          match GetPreInstalledApex repo apex.name with
          | none => none  -- CHECK in GetPreInstalledApex fires
          | some preInstalled =>
            if preInstalled.isCompressed = false then
              -- decompressed apex without compressed counterpart: skip
              some repo
            else if validate preInstalled apex = false then
              -- ValidateDecompressedApex failed: skip
              some repo
            else
              some (insertOrReplaceData repo apex)
        else if strEndsWith apex.path kDecompressedApexPackageSuffix then
          -- non-decompressed apex with the reserved suffix: skip
          some repo
        else
          some (insertOrReplaceData repo apex)

/-- The loop of `ApexFileRepository::AddDataApex` over the successfully
opened candidates of the data and decompression directories (open failures
are logged and skipped by the source, so they do not appear in the list). -/
def AddDataApexFiles (validate : ApexFile → ApexFile → Bool)
    (repo : ApexFileRepository) :
    List ApexFile → Option ApexFileRepository
  | [] => some repo
  | f :: fs =>
    match processDataApex validate repo f with
    | none => none
    | some r => AddDataApexFiles validate r fs

/-- The filter a data candidate must pass in the `AddDataApex` loop before it
reaches the data-index update (apex_file_repository.cpp:141-177). -/
def EligibleData (validate : ApexFile → ApexFile → Bool)
    (repo : ApexFileRepository) (apex : ApexFile) : Bool :=
  HasPreInstalledVersion repo apex.name &&
  (match GetPublicKey repo apex.name with
   | .error _ => false
   | .ok k => apex.publicKey == k) &&
  (if IsDecompressedApex repo apex then
    match GetPreInstalledApex repo apex.name with
    | none => false
    | some preInstalled => preInstalled.isCompressed && validate preInstalled apex
   else
    !(strEndsWith apex.path kDecompressedApexPackageSuffix))

/-- Entry of the legacy pre-installed store
(`ApexPreinstalledData::ApexData`, apex_preinstalled_data.h). -/
structure ApexData where
  public_key : String
  path : String
deriving DecidableEq, Repr

/-- Per-file body of the loop of `ApexPreinstalledData::ScanDir`
(apex_preinstalled_data.cpp:49-70); note the legacy scanner has no
development-build exemption, a duplicate name with a different path is
always fatal. -/
def legacyScanFile (data : List (String × ApexData))
    (f : Except String ApexFile) : Outcome (List (String × ApexData)) :=
  match f with
  | .error e => .ioError e
  | .ok apex =>
    let apexData : ApexData := ⟨apex.publicKey, apex.path⟩
    match StoreFind data apex.name with
    | none => .ok (data ++ [(apex.name, apexData)])
    | some it =>
      if it.path ≠ apexData.path then
        .fatalAbort
      else if it.public_key ≠ apexData.public_key then
        .fatalAbort
      else
        .ok data

/-- The loop of `ApexPreinstalledData::ScanDir` over the open results. -/
def legacyScanFiles (data : List (String × ApexData)) :
    List (Except String ApexFile) → Outcome (List (String × ApexData))
  | [] => .ok data
  | f :: fs =>
    match legacyScanFile data f with
    | .ok d => legacyScanFiles d fs
    | .ioError e => .ioError e
    | .fatalAbort => .fatalAbort

/-- Embeds `ApexPreinstalledData::ScanDir` (apex_preinstalled_data.cpp:37-72). -/
def LegacyScanDir (data : List (String × ApexData)) (d : DirState) :
    Outcome (List (String × ApexData)) :=
  match d with
  | .absent => .ok data
  | .unreadable e => .ioError e
  | .present files => legacyScanFiles data files

/-- Embeds `ApexPreinstalledData::Initialize`
(apex_preinstalled_data.cpp:79-87). -/
def LegacyInitialize (data : List (String × ApexData)) :
    List DirState → Outcome (List (String × ApexData))
  | [] => .ok data
  | d :: ds =>
    match LegacyScanDir data d with
    | .ok s => LegacyInitialize s ds
    | .ioError e => .ioError e
    | .fatalAbort => .fatalAbort

/-- Embeds `ApexPreinstalledData::GetPublicKey`
(apex_preinstalled_data.cpp:89-96). -/
def LegacyGetPublicKey (data : List (String × ApexData)) (name : String) :
    Except String String :=
  match StoreFind data name with
  | none => .error ("No preinstalled data found for package " ++ name)
  | some it => .ok it.public_key

/-- Embeds `ApexPreinstalledData::GetPreinstalledPath`
(apex_preinstalled_data.cpp:98-105). -/
def LegacyGetPreinstalledPath (data : List (String × ApexData))
    (name : String) : Except String String :=
  match StoreFind data name with
  | none => .error ("No preinstalled data found for package " ++ name)
  | some it => .ok it.path

/-- Embeds `ApexPreinstalledData::HasPreInstalledVersion`
(apex_preinstalled_data.cpp:107-110). -/
def LegacyHasPreInstalledVersion (data : List (String × ApexData))
    (name : String) : Bool :=
  (StoreFind data name).isSome

/-- Names known to the repository, in index order and without repetition,
the domain of `ApexFileRepository::AllApexFilesByName`
(apex_file_repository.cpp:271-294). -/
def repoNames (repo : ApexFileRepository) : List String :=
  (repo.pre_installed_store.map Prod.fst ++
    repo.data_store.map Prod.fst).dedup

/-- Modelled from the spec: `SelectApexForActivation` lives in apexd.cpp,
which is not part of the sources; declared in apexd.h:114-118. Rules 1-5 of
spec section 4.4 over the per-name view `[pre_installed?, data?]`: a data
entry without a pre-installed one is ignored; a single eligible entry is
selected; with both present a shared-library packet selects both (rules 4
and 5), otherwise the higher version wins and the data copy wins ties. -/
def selectForName (repo : ApexFileRepository) (n : String) : List ApexFile :=
  match StoreFind repo.pre_installed_store n,
      StoreFind repo.data_store n with
  | none, _ => []
  | some p, none => [p]
  | some p, some d =>
    if p.providesSharedLibs then [p, d]
    else if p.version < d.version then [d]
    else if d.version < p.version then [p]
    else [d]

/-- Modelled from the spec: the full selector applies `selectForName` to
every name known to the repository. -/
def SelectApexForActivation (repo : ApexFileRepository) : List ApexFile :=
  (repoNames repo).flatMap (selectForName repo)

/-- Number of selected packets carrying a given name. -/
def selectCount (repo : ApexFileRepository) (n : String) : Nat :=
  ((SelectApexForActivation repo).filter fun x => x.name == n).length

/-- Modelled from the spec: `version_of_latest_data_copy(name)` of spec
section 4.3 (apexd.cpp is not part of the sources); versions are strictly
positive, so an absent data copy is below every version. -/
def versionOfLatestDataCopy (repo : ApexFileRepository) (name : String) : Int :=
  match StoreFind repo.data_store name with
  | none => 0
  | some d => d.version

/-- Modelled from the spec: `ShouldAllocateSpaceForDecompression` lives in
apexd.cpp, which is not part of the sources; declared in apexd.h:149-151.
Spec section 4.3: true when the name has no pre-installed entry, or when the
pre-installed counterpart is not compressed, and otherwise exactly when the
new version exceeds the latest data copy's version. -/
def ShouldAllocateSpaceForDecompression (repo : ApexFileRepository)
    (newApexName : String) (newApexVersion : Int) : Bool :=
  match StoreFind repo.pre_installed_store newApexName with
  | none => true
  | some preInstalled =>
    if preInstalled.isCompressed = false then true
    else versionOfLatestDataCopy repo newApexName < newApexVersion

/-- A directory entry as the garbage-collection sweep observes it: the base
name and the inode (`fs::equivalent` holds exactly on equal inodes). -/
structure DirFile where
  base : String
  inode : Nat
deriving DecidableEq, Repr

/-- Modelled from the spec: `RemoveUnlinkedDecompressedApex` lives in
apexd.cpp, which is not part of the sources; declared in apexd.h:133-134.
Spec section 4.3, garbage collection: a file of the decompression directory
is retained exactly when some file of the active-data directory is
`fs::equivalent` to it and carries the same base name; all others are
deleted. -/
def RemoveUnlinkedDecompressedApex (decompressionDir activeDir : List DirFile) :
    List DirFile :=
  decompressionDir.filter fun f =>
    activeDir.any fun g => f.inode == g.inode && f.base == g.base

/-- Key-binding invariant of the data index (spec section 3, invariants 2, 3
and 5): every data entry has a pre-installed entry of the same name whose
bundled public key is byte-equal. -/
def DataKeyInv (repo : ApexFileRepository) : Prop :=
  ∀ n a, StoreFind repo.data_store n = some a →
    ∃ p, StoreFind repo.pre_installed_store n = some p ∧
      p.publicKey = a.publicKey

/-- Consistency of the two indexes: every entry is stored under its own
manifest name (the scanners only ever insert `(name, apex)` pairs keyed by
`apex.GetManifest().name()`). -/
def KeyedByName (repo : ApexFileRepository) : Prop :=
  (∀ m a, StoreFind repo.pre_installed_store m = some a → a.name = m) ∧
  (∀ m a, StoreFind repo.data_store m = some a → a.name = m)

/-- Projection of a packet to the legacy store entry built by
`ApexPreinstalledData::ScanDir` (apex_preinstalled_data.cpp:55-58). -/
def dataOf (f : ApexFile) : ApexData := ⟨f.publicKey, f.path⟩

/-- Expected results asserted by the source test
`ApexdUnitTest.ShouldAllocateSpaceForDecompressionVersionCompare`
(apexd_test.cpp:465-534) against the repository holding the compressed
pre-installed packet `com.android.apex.compressed` at version 1 together
with its decompressed data copy at version 1: querying version 2 must
return true, version 1 false, and version 0 true again. -/
def versionCompareTestExpectation : List (Int × Bool) :=
  [(2, true), (1, false), (0, true)]

/-! Concrete sample data used by the witness theorems below. -/

/-- Decompression directory of the sample repository. -/
def sampleDir : String := "/data/apex/decompressed"

/-- Sample uncompressed pre-installed packet. -/
def preA : ApexFile := ⟨"a", 1, "k1", "/system/apex/a.apex", false, false⟩

/-- Sample compressed pre-installed packet. -/
def preB : ApexFile := ⟨"b", 1, "k2", "/system/apex/b.capex", true, false⟩

/-- A second copy of `preA`'s name at a different path. -/
def preDup : ApexFile := ⟨"a", 1, "k1", "/vendor/apex/a.apex", false, false⟩

/-- Sample data packet, version 2 of `a`. -/
def dataA2 : ApexFile := ⟨"a", 2, "k1", "/data/apex/active/a2.apex", false, false⟩

/-- Sample data packet, version 3 of `a`. -/
def dataA3 : ApexFile := ⟨"a", 3, "k1", "/data/apex/active/a3.apex", false, false⟩

/-- Sample decompressed data packet, version 4 of `b`. -/
def dataB4 : ApexFile :=
  ⟨"b", 4, "k2", "/data/apex/decompressed/b@4.decompressed.apex", false, false⟩

/-- Sample shared-libraries pre-installed packet. -/
def preShared : ApexFile := ⟨"s", 1, "k3", "/system/apex/s.apex", false, true⟩

/-- Sample shared-libraries data packet. -/
def dataShared : ApexFile := ⟨"s", 2, "k3", "/data/apex/active/s2.apex", false, true⟩

/-- Sample repository with two pre-installed packets and no data packets. -/
def repoW : ApexFileRepository := ⟨sampleDir, [("a", preA), ("b", preB)], []⟩

/-- Sample repository with one uncompressed pre-installed packet. -/
def repoA : ApexFileRepository := ⟨sampleDir, [("a", preA)], []⟩

/-- Sample repository with a compressed pre-installed packet and its
decompressed data copy at version 4. -/
def repoB : ApexFileRepository := ⟨sampleDir, [("b", preB)], [("b", dataB4)]⟩

/-- Sample repository holding both flavours of a shared-libraries packet. -/
def repoShared : ApexFileRepository :=
  ⟨sampleDir, [("s", preShared)], [("s", dataShared)]⟩

/-- Compressed pre-installed packet of the
`ShouldAllocateSpaceForDecompressionVersionCompare` test scenario. -/
def preC : ApexFile :=
  ⟨"com.android.apex.compressed", 1, "kc",
    "/system/apex/com.android.apex.compressed.v1.capex", true, false⟩

/-- Decompressed data copy of `preC`, version 1, of the same test scenario. -/
def dataC1 : ApexFile :=
  ⟨"com.android.apex.compressed", 1, "kc",
    "/data/apex/decompressed/com.android.apex.compressed@1.decompressed.apex",
    false, false⟩

/-- Repository state of the
`ShouldAllocateSpaceForDecompressionVersionCompare` test scenario. -/
def repoTest : ApexFileRepository :=
  ⟨sampleDir, [("com.android.apex.compressed", preC)],
    [("com.android.apex.compressed", dataC1)]⟩

/-! Store lemmas. -/

@[simp] theorem StoreFind_nil {α : Type} (n : String) :
    StoreFind ([] : List (String × α)) n = none := rfl

@[simp] theorem StoreFind_cons {α : Type} (k : String) (v : α)
    (t : List (String × α)) (n : String) :
    StoreFind ((k, v) :: t) n = if k = n then some v else StoreFind t n := rfl

theorem StoreFind_append {α : Type} (s t : List (String × α)) (n : String) :
    StoreFind (s ++ t) n = (StoreFind s n).elim (StoreFind t n) some := by
  induction s with
  | nil => simp
  | cons kv s ih =>
    obtain ⟨k, v⟩ := kv
    by_cases h : k = n <;> simp [h, ih]

theorem StoreFind_set {α : Type} (s : List (String × α)) (m n : String)
    (a : α) :
    StoreFind (StoreSet s m a) n =
      if n = m then (StoreFind s n).map fun _ => a else StoreFind s n := by
  induction s with
  | nil => by_cases h : n = m <;> simp [StoreSet, h]
  | cons kv s ih =>
    obtain ⟨k, v⟩ := kv
    simp only [StoreSet, List.map_cons] at ih ⊢
    by_cases hkm : k = m <;> by_cases hkn : k = n
    · have hnm : n = m := by rw [← hkn, hkm]
      rw [if_pos hkm, StoreFind_cons, if_pos hkn, if_pos hnm,
        StoreFind_cons, if_pos hkn]
      rfl
    · rw [if_pos hkm, StoreFind_cons, if_neg hkn, ih, StoreFind_cons,
        if_neg hkn]
    · have hnm : ¬n = m := by rw [← hkn]; exact hkm
      rw [if_neg hkm, StoreFind_cons, if_pos hkn, if_neg hnm,
        StoreFind_cons, if_pos hkn]
    · rw [if_neg hkm, StoreFind_cons, if_neg hkn, ih, StoreFind_cons,
        if_neg hkn]

theorem StoreFind_mem_keys {α : Type} {s : List (String × α)} {n : String}
    {a : α} (h : StoreFind s n = some a) : n ∈ s.map Prod.fst := by
  induction s with
  | nil => simp [StoreFind] at h
  | cons kv s ih =>
    obtain ⟨k, v⟩ := kv
    by_cases hk : k = n
    · simp [hk]
    · simp [StoreFind, hk] at h
      simp [ih h]

/-! Characterization of the per-file step of `AddDataApex`. -/

theorem processDataApex_cases (validate : ApexFile → ApexFile → Bool)
    (repo : ApexFileRepository) (apex : ApexFile) :
    processDataApex validate repo apex = some repo ∨
      (processDataApex validate repo apex =
          some (insertOrReplaceData repo apex) ∧
        EligibleData validate repo apex = true ∧
        ∃ p, StoreFind repo.pre_installed_store apex.name = some p ∧
          p.publicKey = apex.publicKey) := by
  cases hf : StoreFind repo.pre_installed_store apex.name with
  | none =>
    left
    simp [processDataApex, HasPreInstalledVersion, hf]
  | some p =>
    have hHas : HasPreInstalledVersion repo apex.name = true := by
      simp [HasPreInstalledVersion, hf]
    have hkey : GetPublicKey repo apex.name = .ok p.publicKey := by
      simp [GetPublicKey, hf]
    by_cases hk : apex.publicKey = p.publicKey
    · cases hd : IsDecompressedApex repo apex with
      | true =>
        cases hc : p.isCompressed with
        | false =>
          left
          simp [processDataApex, hHas, hkey, hk, hd, GetPreInstalledApex,
            hf, hc]
        | true =>
          cases hv : validate p apex with
          | false =>
            left
            simp [processDataApex, hHas, hkey, hk, hd, GetPreInstalledApex,
              hf, hc, hv]
          | true =>
            right
            refine ⟨?_, ?_, p, rfl, hk.symm⟩
            · simp [processDataApex, hHas, hkey, hk, hd, GetPreInstalledApex,
                hf, hc, hv]
            · simp [EligibleData, hHas, hkey, hk, hd, GetPreInstalledApex,
                hf, hc, hv]
      | false =>
        cases hs : strEndsWith apex.path kDecompressedApexPackageSuffix with
        | true =>
          left
          simp [processDataApex, hHas, hkey, hk, hd, hs]
        | false =>
          right
          refine ⟨?_, ?_, p, rfl, hk.symm⟩
          · simp [processDataApex, hHas, hkey, hk, hd, hs]
          · simp [EligibleData, hHas, hkey, hk, hd, hs]
    · left
      simp [processDataApex, hHas, hkey, hk]

theorem processDataApex_isSome (validate : ApexFile → ApexFile → Bool)
    (repo : ApexFileRepository) (apex : ApexFile) :
    processDataApex validate repo apex ≠ none := by
  rcases processDataApex_cases validate repo apex with h | ⟨h, _⟩ <;>
    simp [h]

theorem processDataApex_of_eligible (validate : ApexFile → ApexFile → Bool)
    (repo : ApexFileRepository) (apex : ApexFile)
    (h : EligibleData validate repo apex = true) :
    processDataApex validate repo apex =
      some (insertOrReplaceData repo apex) := by
  rcases processDataApex_cases validate repo apex with hc | ⟨hc, _⟩
  · -- the skip case can only arise when the candidate is ineligible, in
    -- which case the update coincides with a no-op or the case is ruled out
    -- by `h`; we re-derive the update shape from eligibility directly.
    rcases hf : StoreFind repo.pre_installed_store apex.name with _ | p
    · simp [EligibleData, HasPreInstalledVersion, hf] at h
    · have hHas : HasPreInstalledVersion repo apex.name = true := by
        simp [HasPreInstalledVersion, hf]
      have hkey : GetPublicKey repo apex.name = .ok p.publicKey := by
        simp [GetPublicKey, hf]
      simp only [EligibleData, hHas, hkey, GetPreInstalledApex, hf,
        Bool.and_eq_true, beq_iff_eq] at h
      obtain ⟨⟨-, hk⟩, hrest⟩ := h
      cases hd : IsDecompressedApex repo apex with
      | true =>
        rw [hd, if_pos rfl, Bool.and_eq_true] at hrest
        obtain ⟨hc2, hv⟩ := hrest
        simp [processDataApex, hHas, hkey, hk, hd, GetPreInstalledApex, hf,
          hc2, hv]
      | false =>
        rw [hd] at hrest
        simp only [Bool.false_eq_true, if_false, Bool.not_eq_true'] at hrest
        simp [processDataApex, hHas, hkey, hk, hd, hrest]
  · exact hc

theorem insertOrReplaceData_frame (repo : ApexFileRepository)
    (apex : ApexFile) :
    (insertOrReplaceData repo apex).pre_installed_store =
        repo.pre_installed_store ∧
      (insertOrReplaceData repo apex).decompression_dir =
        repo.decompression_dir := by
  unfold insertOrReplaceData
  split
  · exact ⟨rfl, rfl⟩
  · dsimp only
    split <;> exact ⟨rfl, rfl⟩

theorem processDataApex_frame (validate : ApexFile → ApexFile → Bool)
    (repo r : ApexFileRepository) (apex : ApexFile)
    (h : processDataApex validate repo apex = some r) :
    r.pre_installed_store = repo.pre_installed_store ∧
      r.decompression_dir = repo.decompression_dir := by
  rcases processDataApex_cases validate repo apex with hc | ⟨hc, -, -⟩ <;>
    rw [hc] at h <;> cases h
  · exact ⟨rfl, rfl⟩
  · exact insertOrReplaceData_frame repo apex

theorem AddDataApexFiles_total (validate : ApexFile → ApexFile → Bool) :
    ∀ (files : List ApexFile) (repo : ApexFileRepository),
      ∃ r, AddDataApexFiles validate repo files = some r := by
  intro files
  induction files with
  | nil => exact fun repo => ⟨repo, rfl⟩
  | cons f fs ih =>
    intro repo
    rcases hp : processDataApex validate repo f with _ | r0
    · exact absurd hp (processDataApex_isSome validate repo f)
    · obtain ⟨r, hr⟩ := ih r0
      exact ⟨r, by simp [AddDataApexFiles, hp, hr]⟩

theorem AddDataApexFiles_frame (validate : ApexFile → ApexFile → Bool) :
    ∀ (files : List ApexFile) (repo r : ApexFileRepository),
      AddDataApexFiles validate repo files = some r →
      r.pre_installed_store = repo.pre_installed_store ∧
        r.decompression_dir = repo.decompression_dir := by
  intro files
  induction files with
  | nil =>
    intro repo r h
    cases h
    exact ⟨rfl, rfl⟩
  | cons f fs ih =>
    intro repo r h
    rcases hp : processDataApex validate repo f with _ | r0
    · exact absurd hp (processDataApex_isSome validate repo f)
    · rw [AddDataApexFiles, hp] at h
      obtain ⟨h1, h2⟩ := ih r0 r h
      obtain ⟨h3, h4⟩ := processDataApex_frame validate repo r0 f hp
      exact ⟨h1.trans h3, h2.trans h4⟩

/-- C10: the `CHECK(it != pre_installed_store_.end())` inside
`GetPreInstalledApex` is unreachable from `AddDataApex`: the per-file step
never aborts (its `none` case, which marks the `CHECK` firing, is
impossible because `GetPreInstalledApex` is reached only after
`HasPreInstalledVersion` returned true for the same name and nothing removes
pre-installed entries in between), hence every `AddDataApex` run over any
candidate list completes. -/
theorem addDataApex_check_unreachable (validate : ApexFile → ApexFile → Bool)
    (repo : ApexFileRepository) (files : List ApexFile) :
    (∀ apex, processDataApex validate repo apex ≠ none) ∧
      ∃ r, AddDataApexFiles validate repo files = some r :=
  ⟨fun apex => processDataApex_isSome validate repo apex,
    AddDataApexFiles_total validate files repo⟩

/-- C6: `IsPreInstalledApex` holds exactly when the pre-installed index has
an entry for the packet's name whose path equals the packet's path, or the
packet is a decompressed file (it lives under the decompression directory)
backed by that entry. -/
theorem isPreInstalledApex_iff (repo : ApexFileRepository) (apex : ApexFile) :
    IsPreInstalledApex repo apex = true ↔
      ∃ e, StoreFind repo.pre_installed_store apex.name = some e ∧
        (e.path = apex.path ∨ IsDecompressedApex repo apex = true) := by
  unfold IsPreInstalledApex
  cases hf : StoreFind repo.pre_installed_store apex.name with
  | none => simp
  | some e => simp [hf]

/-- C7: after the garbage-collection sweep, a file of the decompression
directory is retained if and only if the active-data directory holds a file
with the same inode (the `fs::equivalent` test) and the same base name;
every other file is deleted. -/
theorem removeUnlinked_retains_iff (decompressionDir activeDir : List DirFile)
    (f : DirFile) :
    f ∈ RemoveUnlinkedDecompressedApex decompressionDir activeDir ↔
      f ∈ decompressionDir ∧
        ∃ g ∈ activeDir, g.inode = f.inode ∧ g.base = f.base := by
  unfold RemoveUnlinkedDecompressedApex
  simp only [List.mem_filter, List.any_eq_true, Bool.and_eq_true, beq_iff_eq]
  constructor
  · rintro ⟨hmem, g, hg, h1, h2⟩
    exact ⟨hmem, g, hg, h1.symm, h2.symm⟩
  · rintro ⟨hmem, g, hg, h1, h2⟩
    exact ⟨hmem, g, hg, h1.symm, h2.symm⟩

/-! Data-index update: entry evolution under `insertOrReplaceData`. -/

theorem insertOrReplaceData_find (repo : ApexFileRepository) (apex : ApexFile)
    (n : String) :
    StoreFind (insertOrReplaceData repo apex).data_store n =
        StoreFind repo.data_store n ∨
      (n = apex.name ∧
        StoreFind (insertOrReplaceData repo apex).data_store n = some apex) := by
  unfold insertOrReplaceData
  cases hf : StoreFind repo.data_store apex.name with
  | none =>
    dsimp only
    rw [StoreFind_append]
    cases hd : StoreFind repo.data_store n with
    | some b => left; rfl
    | none =>
      by_cases hn : apex.name = n
      · right
        refine ⟨hn.symm, ?_⟩
        simp [hn]
      · left
        simp [hn, hd]
  | some it =>
    dsimp only
    split
    · rw [StoreFind_set]
      by_cases hn : n = apex.name
      · right
        refine ⟨hn, ?_⟩
        rw [if_pos hn, hn, hf]
        rfl
      · left
        rw [if_neg hn]
    · left
      rfl

theorem insertOrReplaceData_keyInv (repo : ApexFileRepository)
    (apex : ApexFile) (hinv : DataKeyInv repo)
    (hp : ∃ p, StoreFind repo.pre_installed_store apex.name = some p ∧
      p.publicKey = apex.publicKey) :
    DataKeyInv (insertOrReplaceData repo apex) := by
  obtain ⟨p, hp1, hp2⟩ := hp
  obtain ⟨hpre, -⟩ := insertOrReplaceData_frame repo apex
  intro n a ha
  rw [hpre]
  rcases insertOrReplaceData_find repo apex n with hsame | ⟨hn, hval⟩
  · rw [hsame] at ha
    exact hinv n a ha
  · rw [hval] at ha
    cases ha
    subst hn
    exact ⟨p, hp1, hp2⟩

theorem AddDataApexFiles_keyInv (validate : ApexFile → ApexFile → Bool) :
    ∀ (files : List ApexFile) (repo r : ApexFileRepository),
      DataKeyInv repo → AddDataApexFiles validate repo files = some r →
      DataKeyInv r := by
  intro files
  induction files with
  | nil =>
    intro repo r h hr
    cases hr
    exact h
  | cons f fs ih =>
    intro repo r h hr
    rcases processDataApex_cases validate repo f with hc | ⟨hc, -, hp⟩
    · rw [AddDataApexFiles, hc] at hr
      exact ih repo r h hr
    · rw [AddDataApexFiles, hc] at hr
      exact ih _ r (insertOrReplaceData_keyInv repo f h hp) hr

theorem AddDataApexFiles_untouched (validate : ApexFile → ApexFile → Bool) :
    ∀ (files : List ApexFile) (repo r : ApexFileRepository),
      AddDataApexFiles validate repo files = some r →
      ∀ n, HasPreInstalledVersion repo n = false →
        StoreFind r.data_store n = StoreFind repo.data_store n := by
  intro files
  induction files with
  | nil =>
    intro repo r hr n _
    cases hr
    rfl
  | cons f fs ih =>
    intro repo r hr n hn
    rcases processDataApex_cases validate repo f with hc | ⟨hc, -, p, hp, -⟩
    · rw [AddDataApexFiles, hc] at hr
      exact ih repo r hr n hn
    · rw [AddDataApexFiles, hc] at hr
      have hne : n ≠ f.name := by
        intro he
        rw [HasPreInstalledVersion, he, hp] at hn
        cases hn
      have hstep :
          StoreFind (insertOrReplaceData repo f).data_store n =
            StoreFind repo.data_store n := by
        rcases insertOrReplaceData_find repo f n with hsame | ⟨hn2, -⟩
        · exact hsame
        · exact absurd hn2 hne
      have hn2 : HasPreInstalledVersion (insertOrReplaceData repo f) n = false := by
        rw [HasPreInstalledVersion, (insertOrReplaceData_frame repo f).1]
        exact hn
      rw [ih _ r hr n hn2, hstep]

/-- C1: `AddDataApex` always completes, never changes the pre-installed
index, preserves the data-index key-binding invariant (every retained data
entry has a pre-installed entry of the same name with a byte-equal bundled
public key, so `GetPublicKey` of such a name returns exactly the data
entry's key), and a candidate whose name has no pre-installed counterpart is
never inserted. Mismatching-key candidates can never appear in the data
index because the invariant forces every retained entry's key to equal the
pre-installed one. -/
theorem addDataApex_key_invariant (validate : ApexFile → ApexFile → Bool)
    (repo : ApexFileRepository) (files : List ApexFile)
    (hinv : DataKeyInv repo) :
    ∃ r, AddDataApexFiles validate repo files = some r ∧
      r.pre_installed_store = repo.pre_installed_store ∧
      DataKeyInv r ∧
      (∀ n a, StoreFind r.data_store n = some a →
        GetPublicKey r n = Except.ok a.publicKey) ∧
      ∀ n, HasPreInstalledVersion repo n = false →
        StoreFind r.data_store n = StoreFind repo.data_store n := by
  obtain ⟨r, hr⟩ := AddDataApexFiles_total validate files repo
  obtain ⟨hpre, -⟩ := AddDataApexFiles_frame validate files repo r hr
  have hinv2 := AddDataApexFiles_keyInv validate files repo r hinv hr
  refine ⟨r, hr, hpre, hinv2, ?_,
    AddDataApexFiles_untouched validate files repo r hr⟩
  intro n a ha
  obtain ⟨p, hp1, hp2⟩ := hinv2 n a ha
  simp [GetPublicKey, hp1, hp2]

/-- Witness for C1 at a concrete repository and candidate list. -/
theorem addDataApex_key_invariant_witness :
    ∃ r, AddDataApexFiles (fun _ _ => true) repoW [dataA2] = some r ∧
      r.pre_installed_store = repoW.pre_installed_store ∧
      DataKeyInv r ∧
      (∀ n a, StoreFind r.data_store n = some a →
        GetPublicKey r n = Except.ok a.publicKey) ∧
      ∀ n, HasPreInstalledVersion repoW n = false →
        StoreFind r.data_store n = StoreFind repoW.data_store n :=
  addDataApex_key_invariant (fun _ _ => true) repoW [dataA2]
    (fun n a ha => by simp [repoW] at ha)

/-! Pre-installed scan lemmas. -/

theorem scanPreInstalledFiles_append (nonRel : Bool) :
    ∀ (fs1 fs2 : List (Except String ApexFile))
      (store : List (String × ApexFile)),
      scanPreInstalledFiles nonRel store (fs1 ++ fs2) =
        match scanPreInstalledFiles nonRel store fs1 with
        | .ok s => scanPreInstalledFiles nonRel s fs2
        | .ioError e => .ioError e
        | .fatalAbort => .fatalAbort := by
  intro fs1
  induction fs1 with
  | nil => intro fs2 store; rfl
  | cons f fs ih =>
    intro fs2 store
    cases hstep : scanPreInstalledFile nonRel store f with
    | ok s => simp [scanPreInstalledFiles, hstep, ih]
    | ioError e => simp [scanPreInstalledFiles, hstep]
    | fatalAbort => simp [scanPreInstalledFiles, hstep]

/-- C4: a pre-installed scan that meets a packet whose name is already in
the pre-installed index under a different path aborts the process
(`LOG(FATAL)`), for every name not covered by the development-build
exemption (the VNDK prefix on a non-REL build). -/
theorem scanBuiltInDir_duplicate_fatal (nonRel : Bool)
    (store store1 : List (String × ApexFile))
    (fs1 fs2 : List (Except String ApexFile)) (apex existing : ApexFile)
    (hfs1 : scanPreInstalledFiles nonRel store fs1 = .ok store1)
    (hdup : StoreFind store1 apex.name = some existing)
    (hpath : existing.path ≠ apex.path)
    (hexempt : ¬(strStartsWith apex.name "com.android.vndk." = true ∧
      nonRel = true)) :
    ScanBuiltInDir nonRel store
      (DirState.present (fs1 ++ Except.ok apex :: fs2)) =
      Outcome.fatalAbort := by
  show scanPreInstalledFiles nonRel store (fs1 ++ .ok apex :: fs2) = _
  rw [scanPreInstalledFiles_append, hfs1]
  have hstep : scanPreInstalledFile nonRel store1 (.ok apex) = .fatalAbort := by
    simp [scanPreInstalledFile, hdup, hpath, hexempt]
  simp [scanPreInstalledFiles, hstep]

/-- Witness for C4: a second copy of packet `a` at a different path aborts
the scan. -/
theorem scanBuiltInDir_duplicate_fatal_witness :
    ScanBuiltInDir false [] (DirState.present [.ok preA, .ok preDup]) =
      Outcome.fatalAbort :=
  scanBuiltInDir_duplicate_fatal false [] [("a", preA)] [.ok preA] [] preDup
    preA (by decide) (by decide) (by decide) (by decide)

theorem AddPreInstalledApex_absent (nonRel : Bool)
    (store : List (String × ApexFile)) :
    ∀ dirs, (∀ d ∈ dirs, d = DirState.absent) →
      AddPreInstalledApex nonRel store dirs = .ok store
  | [], _ => rfl
  | d :: ds, h => by
    have hd := h d (List.mem_cons_self d ds)
    subst hd
    show AddPreInstalledApex nonRel store ds = .ok store
    exact AddPreInstalledApex_absent nonRel store ds fun x hx =>
      h x (List.mem_cons_of_mem _ hx)

theorem LegacyInitialize_absent (legacy : List (String × ApexData)) :
    ∀ dirs, (∀ d ∈ dirs, d = DirState.absent) →
      LegacyInitialize legacy dirs = .ok legacy
  | [], _ => rfl
  | d :: ds, h => by
    have hd := h d (List.mem_cons_self d ds)
    subst hd
    show LegacyInitialize legacy ds = .ok legacy
    exact LegacyInitialize_absent legacy ds fun x hx =>
      h x (List.mem_cons_of_mem _ hx)

/-- C8: an absent pre-installed root is skipped with success and leaves the
index unchanged, in both the new and the legacy scanner; scanning only
absent directories succeeds with the starting (in particular empty) index. -/
theorem scan_absent_directories (nonRel : Bool)
    (store : List (String × ApexFile)) (legacy : List (String × ApexData))
    (dirs : List DirState) (h : ∀ d ∈ dirs, d = DirState.absent) :
    ScanBuiltInDir nonRel store DirState.absent = .ok store ∧
    AddPreInstalledApex nonRel store dirs = .ok store ∧
    LegacyScanDir legacy DirState.absent = .ok legacy ∧
    LegacyInitialize legacy dirs = .ok legacy :=
  ⟨rfl, AddPreInstalledApex_absent nonRel store dirs h, rfl,
    LegacyInitialize_absent legacy dirs h⟩

/-- Witness for C8 over two absent directories and empty indexes. -/
theorem scan_absent_directories_witness :
    ScanBuiltInDir false [] DirState.absent = .ok [] ∧
    AddPreInstalledApex false [] [DirState.absent, DirState.absent] = .ok [] ∧
    LegacyScanDir [] DirState.absent = .ok [] ∧
    LegacyInitialize [] [DirState.absent, DirState.absent] = .ok [] :=
  scan_absent_directories false [] [] [DirState.absent, DirState.absent]
    (by decide)

/-- C5: the spec-modelled `should_allocate_for_decompression` is monotone in
the version argument: once it returns false at a version, it returns false
at every smaller or equal version against the same repository. -/
theorem shouldAllocate_monotone (repo : ApexFileRepository) (name : String)
    (v v0 : Int)
    (h0 : ShouldAllocateSpaceForDecompression repo name v0 = false)
    (hle : v ≤ v0) :
    ShouldAllocateSpaceForDecompression repo name v = false := by
  unfold ShouldAllocateSpaceForDecompression at h0 ⊢
  cases hf : StoreFind repo.pre_installed_store name with
  | none =>
    rw [hf] at h0
    exact Bool.noConfusion h0
  | some p =>
    rw [hf] at h0
    dsimp only at h0 ⊢
    by_cases hc : p.isCompressed = false
    · rw [if_pos hc] at h0
      cases h0
    · rw [if_neg hc] at h0 ⊢
      rw [decide_eq_false_iff_not] at h0 ⊢
      intro hlt
      exact h0 (lt_of_lt_of_le hlt hle)

/-- Witness for C5: with a data copy at version 4 the spec-modelled check is
false at 4, hence also at 3. -/
theorem shouldAllocate_monotone_witness :
    ShouldAllocateSpaceForDecompression repoB "b" 3 = false :=
  shouldAllocate_monotone repoB "b" 3 4 (by decide) (by decide)

/-- The expectations of the source test
`ShouldAllocateSpaceForDecompressionVersionCompare` are incompatible with
monotonicity in the version argument: any function agreeing with the
asserted values is false at version 1 yet true at version 0. Together with
the previous theorem this records that the spec-modelled definition cannot
satisfy that test (see also `shouldAllocate_spec_model_vs_test`). -/
theorem versionCompareTestExpectation_not_monotone :
    ∀ f : Int → Bool,
      (∀ p ∈ versionCompareTestExpectation, f p.1 = p.2) →
      ¬(∀ v v0 : Int, f v0 = false → v ≤ v0 → f v = false) := by
  intro f hf hmono
  have h1 : f 1 = false := hf (1, false) (by decide)
  have h0 : f 0 = true := hf (0, true) (by decide)
  have h2 := hmono 0 1 h1 (by norm_num)
  rw [h0] at h2
  cases h2

/-- Concrete divergence: on the test scenario's repository the spec-modelled
check returns false at version 0, while the source test asserts true. -/
theorem shouldAllocate_spec_model_vs_test :
    ShouldAllocateSpaceForDecompression repoTest
        "com.android.apex.compressed" 0 = false ∧
      ((0 : Int), true) ∈ versionCompareTestExpectation :=
  ⟨by decide, by decide⟩

/-! Refinement of the legacy pre-installed store by the repository. -/

theorem StoreFind_eq_none_of_not_mem {α : Type} {s : List (String × α)}
    {n : String} (h : n ∉ s.map Prod.fst) : StoreFind s n = none := by
  induction s with
  | nil => rfl
  | cons kv s ih =>
    obtain ⟨k, v⟩ := kv
    simp only [List.map_cons, List.mem_cons, not_or] at h
    rw [StoreFind_cons, if_neg (fun he => h.1 he.symm)]
    exact ih h.2

theorem StoreFind_map_dataOf (s : List (String × ApexFile)) (n : String) :
    StoreFind (s.map fun kv => (kv.1, dataOf kv.2)) n =
      (StoreFind s n).map dataOf := by
  induction s with
  | nil => rfl
  | cons kv s ih =>
    obtain ⟨k, v⟩ := kv
    by_cases h : k = n <;> simp [h, ih]

theorem scanPreInstalledFiles_fresh (nonRel : Bool) :
    ∀ (files : List ApexFile) (store : List (String × ApexFile)),
      (∀ f ∈ files, StoreFind store f.name = none) →
      (files.map ApexFile.name).Nodup →
      scanPreInstalledFiles nonRel store (files.map Except.ok) =
        .ok (store ++ files.map fun f => (f.name, f)) := by
  intro files
  induction files with
  | nil =>
    intro store _ _
    simp [scanPreInstalledFiles]
  | cons f fs ih =>
    intro store hfresh hnodup
    have hstep : scanPreInstalledFile nonRel store (.ok f) =
        .ok (store ++ [(f.name, f)]) := by
      simp [scanPreInstalledFile, hfresh f (List.mem_cons_self f fs)]
    have hfresh2 : ∀ g ∈ fs, StoreFind (store ++ [(f.name, f)]) g.name = none := by
      intro g hg
      rw [StoreFind_append, hfresh g (List.mem_cons_of_mem _ hg)]
      have hne : f.name ≠ g.name := by
        intro he
        exact (List.nodup_cons.mp hnodup).1
          (he ▸ List.mem_map_of_mem ApexFile.name hg)
      simp [hne]
    simp only [List.map_cons, scanPreInstalledFiles, hstep]
    rw [ih (store ++ [(f.name, f)]) hfresh2 (List.nodup_cons.mp hnodup).2]
    simp

theorem legacyScanFiles_fresh :
    ∀ (files : List ApexFile) (data : List (String × ApexData)),
      (∀ f ∈ files, StoreFind data f.name = none) →
      (files.map ApexFile.name).Nodup →
      legacyScanFiles data (files.map Except.ok) =
        .ok (data ++ files.map fun f => (f.name, dataOf f)) := by
  intro files
  induction files with
  | nil =>
    intro data _ _
    simp [legacyScanFiles]
  | cons f fs ih =>
    intro data hfresh hnodup
    have hstep : legacyScanFile data (.ok f) =
        .ok (data ++ [(f.name, dataOf f)]) := by
      simp [legacyScanFile, hfresh f (List.mem_cons_self f fs), dataOf]
    have hfresh2 : ∀ g ∈ fs,
        StoreFind (data ++ [(f.name, dataOf f)]) g.name = none := by
      intro g hg
      rw [StoreFind_append, hfresh g (List.mem_cons_of_mem _ hg)]
      have hne : f.name ≠ g.name := by
        intro he
        exact (List.nodup_cons.mp hnodup).1
          (he ▸ List.mem_map_of_mem ApexFile.name hg)
      simp [hne]
    simp only [List.map_cons, legacyScanFiles, hstep]
    rw [ih (data ++ [(f.name, dataOf f)]) hfresh2 (List.nodup_cons.mp hnodup).2]
    simp

theorem AddPreInstalledApex_fresh (nonRel : Bool) :
    ∀ (dirs : List (List ApexFile)) (store : List (String × ApexFile)),
      (∀ f ∈ dirs.flatten, StoreFind store f.name = none) →
      (dirs.flatten.map ApexFile.name).Nodup →
      AddPreInstalledApex nonRel store
          (dirs.map fun l => DirState.present (l.map Except.ok)) =
        .ok (store ++ dirs.flatten.map fun f => (f.name, f)) := by
  intro dirs
  induction dirs with
  | nil =>
    intro store _ _
    simp [AddPreInstalledApex]
  | cons l ls ih =>
    intro store hfresh hnodup
    rw [List.flatten_cons] at hfresh hnodup
    rw [List.map_append] at hnodup
    obtain ⟨hnd1, hnd2, hdisj⟩ := List.nodup_append.mp hnodup
    have hf1 : ∀ f ∈ l, StoreFind store f.name = none := fun f hf =>
      hfresh f (List.mem_append_left _ hf)
    have hscan := scanPreInstalledFiles_fresh nonRel l store hf1 hnd1
    have hf2 : ∀ g ∈ ls.flatten,
        StoreFind (store ++ l.map fun f => (f.name, f)) g.name = none := by
      intro g hg
      rw [StoreFind_append, hfresh g (List.mem_append_right _ hg)]
      have hnm : g.name ∉ l.map ApexFile.name := by
        intro hmem
        exact hdisj hmem (List.mem_map_of_mem ApexFile.name hg)
      have : StoreFind (l.map fun f => (f.name, f)) g.name = none := by
        apply StoreFind_eq_none_of_not_mem
        simpa [List.map_map, Function.comp] using hnm
      simp [this]
    simp only [List.map_cons, AddPreInstalledApex, ScanBuiltInDir, hscan]
    rw [ih (store ++ l.map fun f => (f.name, f)) hf2 hnd2]
    simp [List.flatten_cons]

theorem LegacyInitialize_fresh :
    ∀ (dirs : List (List ApexFile)) (data : List (String × ApexData)),
      (∀ f ∈ dirs.flatten, StoreFind data f.name = none) →
      (dirs.flatten.map ApexFile.name).Nodup →
      LegacyInitialize data
          (dirs.map fun l => DirState.present (l.map Except.ok)) =
        .ok (data ++ dirs.flatten.map fun f => (f.name, dataOf f)) := by
  intro dirs
  induction dirs with
  | nil =>
    intro data _ _
    simp [LegacyInitialize]
  | cons l ls ih =>
    intro data hfresh hnodup
    rw [List.flatten_cons] at hfresh hnodup
    rw [List.map_append] at hnodup
    obtain ⟨hnd1, hnd2, hdisj⟩ := List.nodup_append.mp hnodup
    have hf1 : ∀ f ∈ l, StoreFind data f.name = none := fun f hf =>
      hfresh f (List.mem_append_left _ hf)
    have hscan := legacyScanFiles_fresh l data hf1 hnd1
    have hf2 : ∀ g ∈ ls.flatten,
        StoreFind (data ++ l.map fun f => (f.name, dataOf f)) g.name = none := by
      intro g hg
      rw [StoreFind_append, hfresh g (List.mem_append_right _ hg)]
      have hnm : g.name ∉ l.map ApexFile.name := by
        intro hmem
        exact hdisj hmem (List.mem_map_of_mem ApexFile.name hg)
      have : StoreFind (l.map fun f => (f.name, dataOf f)) g.name = none := by
        apply StoreFind_eq_none_of_not_mem
        simpa [List.map_map, Function.comp] using hnm
      simp [this]
    simp only [List.map_cons, LegacyInitialize, LegacyScanDir, hscan]
    rw [ih (data ++ l.map fun f => (f.name, dataOf f)) hf2 hnd2]
    simp [List.flatten_cons]

theorem aligned_queries (s : List (String × ApexFile)) (ddir : String)
    (ds : List (String × ApexFile)) (n : String) :
    LegacyHasPreInstalledVersion (s.map fun kv => (kv.1, dataOf kv.2)) n =
        HasPreInstalledVersion ⟨ddir, s, ds⟩ n ∧
      LegacyGetPreinstalledPath (s.map fun kv => (kv.1, dataOf kv.2)) n =
        GetPreinstalledPath ⟨ddir, s, ds⟩ n ∧
      (HasPreInstalledVersion ⟨ddir, s, ds⟩ n = true →
        LegacyGetPublicKey (s.map fun kv => (kv.1, dataOf kv.2)) n =
          GetPublicKey ⟨ddir, s, ds⟩ n) ∧
      (HasPreInstalledVersion ⟨ddir, s, ds⟩ n = false →
        LegacyGetPublicKey (s.map fun kv => (kv.1, dataOf kv.2)) n =
            .error ("No preinstalled data found for package " ++ n) ∧
          GetPublicKey ⟨ddir, s, ds⟩ n =
            .error ("No preinstalled apex found for package " ++ n)) := by
  have hkey := StoreFind_map_dataOf s n
  cases hs : StoreFind s n with
  | none =>
    rw [hs] at hkey
    refine ⟨?_, ?_, ?_, ?_⟩
    · simp [LegacyHasPreInstalledVersion, HasPreInstalledVersion, hkey, hs]
    · simp [LegacyGetPreinstalledPath, GetPreinstalledPath, hkey, hs]
    · intro hc
      simp [HasPreInstalledVersion, hs] at hc
    · intro _
      exact ⟨by simp [LegacyGetPublicKey, hkey],
        by simp [GetPublicKey, hs]⟩
  | some e =>
    rw [hs] at hkey
    refine ⟨?_, ?_, ?_, ?_⟩
    · simp [LegacyHasPreInstalledVersion, HasPreInstalledVersion, hkey, hs]
    · simp only [LegacyGetPreinstalledPath, GetPreinstalledPath, hkey, hs,
        Option.map_some']
      rfl
    · intro _
      simp only [LegacyGetPublicKey, GetPublicKey, hkey, hs,
        Option.map_some']
      rfl
    · intro hc
      simp [HasPreInstalledVersion, hs] at hc

/-- C9 amended: over directories whose packet files are uncompressed with
pairwise-distinct manifest names, the legacy `ApexPreinstalledData` and the
new `ApexFileRepository` build aligned pre-installed state:
`HasPreInstalledVersion` and `GetPreinstalledPath` agree on every name, and
`GetPublicKey` agrees on every name that has a pre-installed entry; on
absent names both `GetPublicKey` calls fail, but with different diagnostic
messages ("no preinstalled data" versus "no preinstalled apex"), so the two
are not byte-for-byte equal there. -/
theorem preinstalled_refinement (dirs : List (List ApexFile)) (nonRel : Bool)
    (hnodup : (dirs.flatten.map ApexFile.name).Nodup)
    (hunc : ∀ f ∈ dirs.flatten, f.isCompressed = false) :
    ∃ s d,
      AddPreInstalledApex nonRel []
          (dirs.map fun l => DirState.present (l.map Except.ok)) = .ok s ∧
      LegacyInitialize []
          (dirs.map fun l => DirState.present (l.map Except.ok)) = .ok d ∧
      ∀ (ddir : String) (ds : List (String × ApexFile)) (n : String),
        LegacyHasPreInstalledVersion d n =
            HasPreInstalledVersion ⟨ddir, s, ds⟩ n ∧
          LegacyGetPreinstalledPath d n =
            GetPreinstalledPath ⟨ddir, s, ds⟩ n ∧
          (HasPreInstalledVersion ⟨ddir, s, ds⟩ n = true →
            LegacyGetPublicKey d n = GetPublicKey ⟨ddir, s, ds⟩ n) ∧
          (HasPreInstalledVersion ⟨ddir, s, ds⟩ n = false →
            LegacyGetPublicKey d n =
                .error ("No preinstalled data found for package " ++ n) ∧
              GetPublicKey ⟨ddir, s, ds⟩ n =
                .error ("No preinstalled apex found for package " ++ n)) := by
  have hempty : ∀ f ∈ dirs.flatten,
      StoreFind ([] : List (String × ApexFile)) f.name = none := by
    intro f _
    rfl
  have hemptyd : ∀ f ∈ dirs.flatten,
      StoreFind ([] : List (String × ApexData)) f.name = none := by
    intro f _
    rfl
  refine ⟨dirs.flatten.map fun f => (f.name, f),
    dirs.flatten.map fun f => (f.name, dataOf f), ?_, ?_, ?_⟩
  · have h := AddPreInstalledApex_fresh nonRel dirs [] hempty hnodup
    rwa [List.nil_append] at h
  · have h := LegacyInitialize_fresh dirs [] hemptyd hnodup
    rwa [List.nil_append] at h
  intro ddir ds n
  have hproj : (dirs.flatten.map fun f => (f.name, dataOf f)) =
      (dirs.flatten.map fun f => (f.name, f)).map fun kv =>
        (kv.1, dataOf kv.2) := by
    rw [List.map_map]
    rfl
  rw [hproj]
  exact aligned_queries (dirs.flatten.map fun f => (f.name, f)) ddir ds n

/-- C9 counterexample: the two implementations scan the same single
directory, yet `GetPublicKey` on a name with no pre-installed entry returns
different error values, so the claimed equality of results on every name
fails. -/
theorem preinstalled_refinement_counterexample :
    AddPreInstalledApex false [] [DirState.present [Except.ok preA]] =
        .ok [("a", preA)] ∧
      LegacyInitialize [] [DirState.present [Except.ok preA]] =
        .ok [("a", dataOf preA)] ∧
      LegacyGetPublicKey [("a", dataOf preA)] "b" ≠
        GetPublicKey ⟨sampleDir, [("a", preA)], []⟩ "b" :=
  ⟨by decide, by decide, by decide⟩

/-- Witness for the amended C9 over one directory holding one uncompressed
packet. -/
theorem preinstalled_refinement_witness :
    ∃ s d,
      AddPreInstalledApex false []
          ([[preA]].map fun l => DirState.present (l.map Except.ok)) = .ok s ∧
      LegacyInitialize []
          ([[preA]].map fun l => DirState.present (l.map Except.ok)) = .ok d ∧
      ∀ (ddir : String) (ds : List (String × ApexFile)) (n : String),
        LegacyHasPreInstalledVersion d n =
            HasPreInstalledVersion ⟨ddir, s, ds⟩ n ∧
          LegacyGetPreinstalledPath d n =
            GetPreinstalledPath ⟨ddir, s, ds⟩ n ∧
          (HasPreInstalledVersion ⟨ddir, s, ds⟩ n = true →
            LegacyGetPublicKey d n = GetPublicKey ⟨ddir, s, ds⟩ n) ∧
          (HasPreInstalledVersion ⟨ddir, s, ds⟩ n = false →
            LegacyGetPublicKey d n =
                .error ("No preinstalled data found for package " ++ n) ∧
              GetPublicKey ⟨ddir, s, ds⟩ n =
                .error ("No preinstalled apex found for package " ++ n)) :=
  preinstalled_refinement [[preA]] false (by decide) (by decide)

/-! Selector cardinality. -/

theorem selectForName_names (repo : ApexFileRepository)
    (hkeys : KeyedByName repo) (m : String) :
    ∀ x ∈ selectForName repo m, x.name = m := by
  intro x hx
  rcases hp : StoreFind repo.pre_installed_store m with _ | p
  · simp [selectForName, hp] at hx
  · rcases hd : StoreFind repo.data_store m with _ | d
    · simp [selectForName, hp, hd] at hx
      rw [hx]
      exact hkeys.1 m p hp
    · have hpn := hkeys.1 m p hp
      have hdn := hkeys.2 m d hd
      by_cases hsl : p.providesSharedLibs = true
      · simp [selectForName, hp, hd, hsl] at hx
        rcases hx with hx | hx <;> rw [hx] <;> assumption
      · by_cases h1 : p.version < d.version
        · simp [selectForName, hp, hd, hsl, h1] at hx
          rw [hx]
          exact hdn
        · by_cases h2 : d.version < p.version
          · simp [selectForName, hp, hd, hsl, h1, h2] at hx
            rw [hx]
            exact hpn
          · simp [selectForName, hp, hd, hsl, h1, h2] at hx
            rw [hx]
            exact hdn

theorem filter_eq_self_of {α : Type} (p : α → Bool) :
    ∀ l : List α, (∀ x ∈ l, p x = true) → l.filter p = l := by
  intro l
  induction l with
  | nil => intro _; rfl
  | cons a l ih =>
    intro h
    simp [List.filter_cons, h a (List.mem_cons_self a l),
      ih fun x hx => h x (List.mem_cons_of_mem _ hx)]

theorem filter_eq_nil_of {α : Type} (p : α → Bool) :
    ∀ l : List α, (∀ x ∈ l, p x = false) → l.filter p = [] := by
  intro l
  induction l with
  | nil => intro _; rfl
  | cons a l ih =>
    intro h
    simp [List.filter_cons, h a (List.mem_cons_self a l),
      ih fun x hx => h x (List.mem_cons_of_mem _ hx)]

theorem filter_flatMap_names (n : String) :
    ∀ (L : List String), L.Nodup →
      ∀ pick : String → List ApexFile,
      (∀ m ∈ L, ∀ x ∈ pick m, x.name = m) →
      (L.flatMap pick).filter (fun x => x.name == n) =
        if n ∈ L then pick n else [] := by
  intro L
  induction L with
  | nil =>
    intro _ pick _
    simp
  | cons m L ih =>
    intro hnd pick hnames
    rw [List.flatMap_cons, List.filter_append]
    have h2 := ih (List.nodup_cons.mp hnd).2 pick
      fun m' hm' x hx => hnames m' (List.mem_cons_of_mem _ hm') x hx
    by_cases hmn : m = n
    · subst hmn
      have h1 : (pick m).filter (fun x => x.name == m) = pick m :=
        filter_eq_self_of _ (pick m) fun x hx => by
          simp [hnames m (List.mem_cons_self m L) x hx]
      have hnotin : m ∉ L := (List.nodup_cons.mp hnd).1
      rw [h1, h2, if_neg hnotin, if_pos (List.mem_cons_self m L)]
      simp
    · have h1 : (pick m).filter (fun x => x.name == n) = [] :=
        filter_eq_nil_of _ (pick m) fun x hx => by
          simp [hnames m (List.mem_cons_self m L) x hx]
          intro he
          exact absurd he hmn
      have hiff : (n ∈ m :: L) ↔ (n ∈ L) := by
        constructor
        · intro h
          rcases List.mem_cons.mp h with h | h
          · exact absurd h.symm hmn
          · exact h
        · exact List.mem_cons_of_mem m
      rw [h1, h2, List.nil_append]
      exact (if_congr hiff rfl rfl).symm

theorem mem_repoNames_of_pre {repo : ApexFileRepository} {n : String}
    {p : ApexFile} (h : StoreFind repo.pre_installed_store n = some p) :
    n ∈ repoNames repo := by
  unfold repoNames
  rw [List.mem_dedup]
  exact List.mem_append_left _ (StoreFind_mem_keys h)

theorem keyed_singleton (k : String) (f : ApexFile) (hf : f.name = k)
    (m : String) (a : ApexFile) (ha : StoreFind [(k, f)] m = some a) :
    a.name = m := by
  rw [StoreFind_cons] at ha
  by_cases h : k = m
  · rw [if_pos h] at ha
    cases ha
    rw [← h]
    exact hf
  · rw [if_neg h] at ha
    exact Option.noConfusion ha

/-- C3: per-name cardinality of the spec-modelled selector over a
consistent repository: a name with an eligible (pre-installed-backed)
packet yields exactly one selection unless it is a shared-library packet,
in which case it yields one or two; when both a pre-installed and a data
shared-library packet exist (of any versions) both are selected. -/
theorem selectApexForActivation_cardinality (repo : ApexFileRepository)
    (n : String) (hkeys : KeyedByName repo) :
    ∀ p, StoreFind repo.pre_installed_store n = some p →
      (p.providesSharedLibs = false → selectCount repo n = 1) ∧
      (p.providesSharedLibs = true →
        selectCount repo n = 1 ∨ selectCount repo n = 2) ∧
      ∀ d, StoreFind repo.data_store n = some d →
        p.providesSharedLibs = true → selectCount repo n = 2 := by
  intro p hp
  have hmem := mem_repoNames_of_pre hp
  have hcount : selectCount repo n = (selectForName repo n).length := by
    unfold selectCount SelectApexForActivation
    rw [filter_flatMap_names n (repoNames repo) (List.nodup_dedup _)
      (selectForName repo) fun m _ x hx => selectForName_names repo hkeys m x hx]
    rw [if_pos hmem]
  cases hd : StoreFind repo.data_store n with
  | none =>
    have hsel : selectForName repo n = [p] := by
      simp [selectForName, hp, hd]
    exact ⟨fun _ => by rw [hcount, hsel]; rfl,
      fun _ => Or.inl (by rw [hcount, hsel]; rfl),
      fun d hdd => Option.noConfusion hdd⟩
  | some d =>
    by_cases hsl : p.providesSharedLibs = true
    · have hsel : selectForName repo n = [p, d] := by
        simp [selectForName, hp, hd, hsl]
      refine ⟨fun hfalse => ?_, fun _ => Or.inr ?_, fun d' _ _ => ?_⟩
      · rw [hfalse] at hsl
        cases hsl
      · rw [hcount, hsel]
        rfl
      · rw [hcount, hsel]
        rfl
    · have hlen : (selectForName repo n).length = 1 := by
        by_cases h1 : p.version < d.version
        · simp [selectForName, hp, hd, hsl, h1]
        · by_cases h2 : d.version < p.version
          · simp [selectForName, hp, hd, hsl, h1, h2]
          · simp [selectForName, hp, hd, hsl, h1, h2]
      exact ⟨fun _ => by rw [hcount]; exact hlen,
        fun ht => absurd ht hsl,
        fun d' _ ht => absurd ht hsl⟩

/-- Witness for C3: both flavours of the shared-library packet are
selected. -/
theorem selectApexForActivation_cardinality_witness :
    selectCount repoShared "s" = 2 :=
  (selectApexForActivation_cardinality repoShared "s"
      ⟨keyed_singleton "s" preShared rfl, keyed_singleton "s" dataShared rfl⟩
      preShared (by decide)).2.2 dataShared (by decide) rfl

/-! Tie-break analysis of the data-index update. -/

theorem IsDecompressedApex_congr {r1 r2 : ApexFileRepository}
    (h : r1.decompression_dir = r2.decompression_dir) (apex : ApexFile) :
    IsDecompressedApex r1 apex = IsDecompressedApex r2 apex := by
  unfold IsDecompressedApex
  rw [h]

theorem EligibleData_congr (validate : ApexFile → ApexFile → Bool)
    {r1 r2 : ApexFileRepository}
    (hpre : r1.pre_installed_store = r2.pre_installed_store)
    (hdir : r1.decompression_dir = r2.decompression_dir) (apex : ApexFile) :
    EligibleData validate r1 apex = EligibleData validate r2 apex := by
  unfold EligibleData HasPreInstalledVersion GetPublicKey IsDecompressedApex
    GetPreInstalledApex
  rw [hpre, hdir]

theorem insertOrReplaceData_entry (repo : ApexFileRepository) (d : ApexFile) :
    ∃ b1, StoreFind (insertOrReplaceData repo d).data_store d.name = some b1 ∧
      (b1 = d ∨ StoreFind repo.data_store d.name = some b1) ∧
      d.version ≤ b1.version ∧
      (d.version = b1.version → IsDecompressedApex repo d = false →
        IsDecompressedApex repo b1 = false) ∧
      ∀ e, StoreFind repo.data_store d.name = some e →
        e.version ≤ b1.version ∧
          (e.version = b1.version → IsDecompressedApex repo e = false →
            IsDecompressedApex repo b1 = false) := by
  unfold insertOrReplaceData
  cases hf : StoreFind repo.data_store d.name with
  | none =>
    dsimp only
    refine ⟨d, ?_, Or.inl rfl, le_refl _, fun _ h => h,
      fun e he => Option.noConfusion he⟩
    rw [StoreFind_append, hf]
    simp
  | some it =>
    dsimp only
    by_cases hcond : (decide (it.version < d.version) ||
        (d.version == it.version && !IsDecompressedApex repo d)) = true
    · rw [if_pos hcond]
      dsimp only
      simp only [Bool.or_eq_true, Bool.and_eq_true, decide_eq_true_eq,
        beq_iff_eq, Bool.not_eq_true'] at hcond
      refine ⟨d, ?_, Or.inl rfl, le_refl _, fun _ h => h, ?_⟩
      · rw [StoreFind_set, if_pos rfl, hf]
        rfl
      · intro e he
        cases he
        rcases hcond with h | ⟨h1, h2⟩
        · exact ⟨le_of_lt h, fun heq _ => absurd heq (ne_of_lt h)⟩
        · exact ⟨le_of_eq h1.symm, fun _ _ => h2⟩
    · rw [if_neg hcond]
      simp only [Bool.or_eq_true, Bool.and_eq_true, decide_eq_true_eq,
        beq_iff_eq, Bool.not_eq_true', not_or, not_and] at hcond
      obtain ⟨hlt, hnd⟩ := hcond
      refine ⟨it, by rw [hf], Or.inr rfl, le_of_not_lt hlt, ?_,
        fun e he => by cases he; exact ⟨le_refl _, fun _ h => h⟩⟩
      intro heq hdec
      exact absurd (hnd heq) (by rw [hdec]; intro hc; exact hc rfl)

theorem addDataApexFiles_entry_spec (validate : ApexFile → ApexFile → Bool)
    (n : String) :
    ∀ (files : List ApexFile) (repo repo' : ApexFileRepository),
      (∀ c ∈ files, EligibleData validate repo c = true) →
      AddDataApexFiles validate repo files = some repo' →
      (∀ b, StoreFind repo'.data_store n = some b →
        StoreFind repo.data_store n = some b ∨ (b ∈ files ∧ b.name = n)) ∧
      (∀ b, StoreFind repo.data_store n = some b →
        ∃ b2, StoreFind repo'.data_store n = some b2 ∧
          b.version ≤ b2.version ∧
          (b.version = b2.version → IsDecompressedApex repo b = false →
            IsDecompressedApex repo b2 = false)) ∧
      ∀ c ∈ files, c.name = n →
        ∃ b2, StoreFind repo'.data_store n = some b2 ∧
          c.version ≤ b2.version ∧
          (c.version = b2.version → IsDecompressedApex repo c = false →
            IsDecompressedApex repo b2 = false) := by
  intro files
  induction files with
  | nil =>
    intro repo repo' _ hrun
    cases hrun
    exact ⟨fun b hb => Or.inl hb,
      fun b hb => ⟨b, hb, le_refl _, fun _ h => h⟩,
      fun c hc => absurd hc (List.not_mem_nil c)⟩
  | cons f fs ih =>
    intro repo repo' helig hrun
    have heligf : EligibleData validate repo f = true :=
      helig f (List.mem_cons_self f fs)
    have hstep := processDataApex_of_eligible validate repo f heligf
    rw [AddDataApexFiles, hstep] at hrun
    obtain ⟨hrpre, hrdir⟩ := insertOrReplaceData_frame repo f
    have helig2 : ∀ c ∈ fs,
        EligibleData validate (insertOrReplaceData repo f) c = true := by
      intro c hc
      rw [EligibleData_congr validate hrpre hrdir c]
      exact helig c (List.mem_cons_of_mem _ hc)
    obtain ⟨ihA, ihB, ihC⟩ := ih (insertOrReplaceData repo f) repo' helig2 hrun
    have hdec : ∀ x, IsDecompressedApex (insertOrReplaceData repo f) x =
        IsDecompressedApex repo x :=
      fun x => IsDecompressedApex_congr hrdir x
    by_cases hfn : f.name = n
    · subst hfn
      obtain ⟨b1, hb1find, hb1src, hb1dv, hb1ddec, hb1old⟩ :=
        insertOrReplaceData_entry repo f
      refine ⟨?_, ?_, ?_⟩
      · intro b hb
        rcases ihA b hb with hA | hA
        · rw [hb1find] at hA
          cases hA
          rcases hb1src with h | h
          · right
            rw [h]
            exact ⟨List.mem_cons_self f fs, rfl⟩
          · left
            exact h
        · right
          exact ⟨List.mem_cons_of_mem _ hA.1, hA.2⟩
      · intro b hb
        obtain ⟨hbv, hbdec⟩ := hb1old b hb
        obtain ⟨b2, hb2find, hb2v, hb2dec⟩ := ihB b1 hb1find
        rw [hdec b1, hdec b2] at hb2dec
        refine ⟨b2, hb2find, le_trans hbv hb2v, ?_⟩
        intro heq hdecb
        have h1 : b.version = b1.version := by omega
        have h2 : b1.version = b2.version := by omega
        exact hb2dec h2 (hbdec h1 hdecb)
      · intro c hc hcn
        rcases List.mem_cons.mp hc with hcf | hcfs
        · subst hcf
          obtain ⟨b2, hb2find, hb2v, hb2dec⟩ := ihB b1 hb1find
          rw [hdec b1, hdec b2] at hb2dec
          refine ⟨b2, hb2find, le_trans hb1dv hb2v, ?_⟩
          intro heq hdecf
          have h1 : c.version = b1.version := by omega
          have h2 : b1.version = b2.version := by omega
          exact hb2dec h2 (hb1ddec h1 hdecf)
        · obtain ⟨b2, hb2find, hb2v, hb2dec⟩ := ihC c hcfs hcn
          rw [hdec c, hdec b2] at hb2dec
          exact ⟨b2, hb2find, hb2v, hb2dec⟩
    · have hfind : StoreFind (insertOrReplaceData repo f).data_store n =
          StoreFind repo.data_store n := by
        rcases insertOrReplaceData_find repo f n with h | ⟨h, -⟩
        · exact h
        · exact absurd h (fun he => hfn he.symm)
      refine ⟨?_, ?_, ?_⟩
      · intro b hb
        rcases ihA b hb with hA | hA
        · left
          rw [← hfind]
          exact hA
        · right
          exact ⟨List.mem_cons_of_mem _ hA.1, hA.2⟩
      · intro b hb
        obtain ⟨b2, h2f, h2v, h2d⟩ := ihB b (by rw [hfind]; exact hb)
        rw [hdec b, hdec b2] at h2d
        exact ⟨b2, h2f, h2v, h2d⟩
      · intro c hc hcn
        rcases List.mem_cons.mp hc with hcf | hcfs
        · exact absurd (hcf ▸ hcn) hfn
        · obtain ⟨b2, h2f, h2v, h2d⟩ := ihC c hcfs hcn
          rw [hdec c, hdec b2] at h2d
          exact ⟨b2, h2f, h2v, h2d⟩

/-- C2: over any presentation order of data candidates that pass the
`AddDataApex` filters, the entry retained in the data index for a name is
one of the candidates of that name, carries the greatest version among
them, and when some candidate of that greatest version is not decompressed
the retained entry is not decompressed either (non-decompressed beats
decompressed at equal versions). -/
theorem addDataApex_tiebreak (validate : ApexFile → ApexFile → Bool)
    (repo repo' : ApexFileRepository) (files : List ApexFile) (n : String)
    (helig : ∀ c ∈ files, EligibleData validate repo c = true)
    (hstart : StoreFind repo.data_store n = none)
    (hex : ∃ c ∈ files, c.name = n)
    (hrun : AddDataApexFiles validate repo files = some repo') :
    ∃ a, StoreFind repo'.data_store n = some a ∧ a ∈ files ∧ a.name = n ∧
      (∀ c ∈ files, c.name = n → c.version ≤ a.version) ∧
      ∀ c ∈ files, c.name = n → c.version = a.version →
        IsDecompressedApex repo c = false →
        IsDecompressedApex repo a = false := by
  obtain ⟨hA, -, hC⟩ :=
    addDataApexFiles_entry_spec validate n files repo repo' helig hrun
  obtain ⟨c0, hc0, hc0n⟩ := hex
  obtain ⟨a, haf, -, -⟩ := hC c0 hc0 hc0n
  have hmem : a ∈ files ∧ a.name = n := by
    rcases hA a haf with h | h
    · rw [hstart] at h
      exact Option.noConfusion h
    · exact h
  refine ⟨a, haf, hmem.1, hmem.2, ?_, ?_⟩
  · intro c hc hcn
    obtain ⟨b2, hb2, hbv, -⟩ := hC c hc hcn
    rw [haf] at hb2
    cases hb2
    exact hbv
  · intro c hc hcn heq hdc
    obtain ⟨b2, hb2, -, hbdec⟩ := hC c hc hcn
    rw [haf] at hb2
    cases hb2
    exact hbdec heq hdc

/-- Witness for C2: of two eligible candidates for `a` at versions 2 and 3,
the version-3 one is retained. -/
theorem addDataApex_tiebreak_witness :
    ∃ a, StoreFind
        (⟨sampleDir, [("a", preA)], [("a", dataA3)]⟩ :
          ApexFileRepository).data_store "a" = some a ∧
      a ∈ [dataA2, dataA3] ∧ a.name = "a" ∧
      (∀ c ∈ [dataA2, dataA3], c.name = "a" → c.version ≤ a.version) ∧
      ∀ c ∈ [dataA2, dataA3], c.name = "a" → c.version = a.version →
        IsDecompressedApex repoA c = false →
        IsDecompressedApex repoA a = false :=
  addDataApex_tiebreak (fun _ _ => true) repoA
    ⟨sampleDir, [("a", preA)], [("a", dataA3)]⟩ [dataA2, dataA3] "a"
    (by decide) (by decide) (by decide) (by decide)

end Apex
